import Mathlib

/-!
Verification of the LLM-Council frontend and of the deliberation job engine
described by its specification.

The client code (frontend/src/api.js, frontend/src/App.jsx,
frontend/src/utils/exportPdf.js) is embedded shallowly: each JavaScript
function that a claim is about is translated into an executable Lean
definition, and the claims are settled as theorems about those definitions.
The backend job engine (backend/council.py and friends) is not part of the
source tree; where a claim depends on it, the relevant component is modelled
from the specification text and the definition's doc comment says so.
-/

namespace LLMCouncil

/-! ## Polling client (api.js, pollJob; App.jsx, pollJobUpdates) -/

/-- A job as seen by the polling client: only its `status` string matters to
the loop's stop condition. -/
structure JobC where
  status : String
  deriving DecidableEq

/-- Stop condition of `pollJob` (api.js line 309) and of the
`pollJobUpdates` loop (App.jsx line 98): the loop exits the polling cycle
exactly when `job.status === 'complete' || job.status === 'error'`. -/
def pollStops (j : JobC) : Bool :=
  j.status == "complete" || j.status == "error"

/-- The `while (true)` loop of `pollJob`, driven by the sequence of snapshots
`jobs` that successive `getJob` fetches return (the `k`-th fetch returns
`jobs k`).  `fuel` bounds the number of iterations we unfold; the real loop
is unbounded, so `none` means the loop is still polling after `fuel`
iterations. -/
def pollJobRun (jobs : Nat → JobC) : Nat → Nat → Option JobC
  | _, 0 => none
  | i, fuel + 1 =>
    let j := jobs i
    if pollStops j then some j else pollJobRun jobs (i + 1) fuel

/-! ## Ranking aggregator (spec §4.5) -/

/-- One row of the aggregate ranking, as rendered by the client
(exportPdf.js uses `agg.model`, `agg.average_rank`, `agg.rankings_count`). -/
structure AggregateRanking where
  model : String
  average_rank : Rat
  rankings_count : Nat
  deriving DecidableEq

/-- 1-indexed position of a label inside one evaluator's parsed ranking,
`none` when the ranking does not mention the label. -/
def pos1 (l : String) : List String → Option Nat
  | [] => none
  | x :: xs => if x = l then some 1 else (pos1 l xs).map (· + 1)

/-- Comparator ordering aggregate rows: ascending `average_rank`, ties broken
by descending `rankings_count`, then by ascending model id. -/
def aggLE (a b : AggregateRanking) : Bool :=
  if a.average_rank < b.average_rank then true
  else if b.average_rank < a.average_rank then false
  else if b.rankings_count < a.rankings_count then true
  else if a.rankings_count < b.rankings_count then false
  else !(decide (b.model < a.model))

/-- Insert into a list sorted by `le`. -/
def insertBy (le : α → α → Bool) (a : α) : List α → List α
  | [] => [a]
  | b :: bs => if le a b then a :: b :: bs else b :: insertBy le a bs

/-- Insertion sort by `le`. -/
def sortBy (le : α → α → Bool) (l : List α) : List α :=
  l.foldr (insertBy le) []

/-- The 1-indexed positions a given label receives across the evaluators
that mention it. -/
def labelPositions (label : String) (rankings : List (String × List String)) :
    List Nat :=
  rankings.filterMap fun r => pos1 label r.2

/-- Modelled from the spec: the Ranking Aggregator (§4.5) of
backend/council.py, which is not under src/.  Input: the `label → provider`
map and the list of `(evaluator, parsed ordered label sequence)` pairs.  For
each provider, `average_rank` is the arithmetic mean of its 1-indexed
position across every evaluator ranking that mentions it and
`rankings_count` the number of such evaluators; providers mentioned by no
evaluator are excluded.  Output sorted ascending by `average_rank`, ties by
descending `rankings_count` then lexical provider id. -/
def aggregateRankings (labelToModel : List (String × String))
    (rankings : List (String × List String)) : List AggregateRanking :=
  let entries := labelToModel.filterMap fun lm =>
    let positions := labelPositions lm.1 rankings
    if positions.length = 0 then none
    else some ⟨lm.2, mkRat positions.sum positions.length, positions.length⟩
  sortBy aggLE entries

/-! ## Job status state machine (spec §4.1) -/

/-- Modelled from the spec: the job statuses of §4.1 (backend job store is
not under src/; the same status strings appear in the client's
`statusToLoading` table in App.jsx). -/
inductive JStatus where
  | pending
  | stage1_running
  | stage1_complete
  | stage2_running
  | stage2_complete
  | stage3_running
  | complete
  | error
  | cancelled
  deriving DecidableEq

/-- Position of a status in the strict forward order of §4.1.  The two
terminal interruption states sit past the end of the chain. -/
def statusPos : JStatus → Nat
  | .pending => 0
  | .stage1_running => 1
  | .stage1_complete => 2
  | .stage2_running => 3
  | .stage2_complete => 4
  | .stage3_running => 5
  | .complete => 6
  | .error => 7
  | .cancelled => 7

/-- Terminal statuses: `complete`, `error`, `cancelled`. -/
def isTerminal : JStatus → Bool
  | .complete => true
  | .error => true
  | .cancelled => true
  | _ => false

/-- Modelled from the spec: the transitions of the Job Store state machine
(§4.1): each step moves one position forward along
`pending → stage1_running → stage1_complete → stage2_running →
stage2_complete → stage3_running → complete`, and `error` / `cancelled` are
reachable from any non-terminal state. -/
inductive Step : JStatus → JStatus → Prop where
  | s01 : Step .pending .stage1_running
  | s12 : Step .stage1_running .stage1_complete
  | s23 : Step .stage1_complete .stage2_running
  | s34 : Step .stage2_running .stage2_complete
  | s45 : Step .stage2_complete .stage3_running
  | s56 : Step .stage3_running .complete
  | toError (s : JStatus) (h : isTerminal s = false) : Step s .error
  | toCancelled (s : JStatus) (h : isTerminal s = false) : Step s .cancelled

/-! ## Push stream vs. poll snapshot (spec §4.8 / §6; App.jsx) -/

/-- Per-stage loading flags of the client's assistant message. -/
structure Loading where
  s1 : Bool
  s2 : Bool
  s3 : Bool
  deriving DecidableEq

/-- The closed union of stream events of §6, with payloads drawn from an
abstract JSON-payload type `D` (the client treats all payloads opaquely). -/
inductive Ev (D : Type) where
  | job_started (jobId : String)
  | stage1_start
  | stage1_progress (p : D)
  | stage1_complete (d : D)
  | stage2_start
  | stage2_progress (p : D)
  | stage2_complete (d : D) (m : D)
  | stage3_start
  | stage3_progress (p : D)
  | stage3_complete (d : D)
  | title_complete
  | complete
  | error (msg : String)
  deriving DecidableEq

/-- The poll endpoint's job snapshot:
`{id, status, stage1, stage2, stage3, metadata, progress, error}`. -/
structure JobB (D : Type) where
  status : String
  stage1 : Option D
  stage2 : Option D
  stage3 : Option D
  metadata : Option D
  progress : Option D
  errMsg : Option String
  deriving DecidableEq

/-- A message of the client's conversation view (App.jsx): user messages
carry `content`; assistant messages carry the stage snapshots, metadata,
loading flags and progress. -/
structure MsgV (D : Type) where
  role : String
  content : Option String
  stage1 : Option D
  stage2 : Option D
  stage3 : Option D
  metadata : Option D
  loading : Loading
  progress : Option D
  deriving DecidableEq

/-- The `statusToLoading` table of `createAssistantMessageFromJob`
(App.jsx lines 51-60), together with its `|| all-false` fallback for any
status missing from the table (in particular `cancelled`). -/
def statusToLoading : String → Loading
  | "stage1_running" => ⟨true, false, false⟩
  | "stage2_running" => ⟨false, true, false⟩
  | "stage3_running" => ⟨false, false, true⟩
  | _ => ⟨false, false, false⟩

/-- `createAssistantMessageFromJob` (App.jsx lines 50-71): the assistant
message view built from a polled job snapshot. -/
def createAssistantMessageFromJob (j : JobB D) : MsgV D :=
  { role := "assistant"
    content := none
    stage1 := j.stage1
    stage2 := j.stage2
    stage3 := j.stage3
    metadata := j.metadata
    loading := statusToLoading j.status
    progress := j.progress }

/-- Modelled from the spec: the Event Multiplexer's job-store updates
(§4.8, backend not under src/) — how each emitted event corresponds to a
mutation of the authoritative job snapshot, so that "the snapshot reflects
exactly the cumulative effect of all events emitted so far". -/
def applyB (j : JobB D) : Ev D → JobB D
  | .job_started _ => { j with status := "pending" }
  | .stage1_start => { j with status := "stage1_running" }
  | .stage1_progress p => { j with progress := some p }
  | .stage1_complete d => { j with status := "stage1_complete", stage1 := some d }
  | .stage2_start => { j with status := "stage2_running" }
  | .stage2_progress p => { j with progress := some p }
  | .stage2_complete d m =>
    { j with status := "stage2_complete", stage2 := some d, metadata := some m }
  | .stage3_start => { j with status := "stage3_running" }
  | .stage3_progress p => { j with progress := some p }
  | .stage3_complete d => { j with status := "complete", stage3 := some d }
  | .title_complete => j
  | .complete => { j with status := "complete" }
  | .error m => { j with status := "error", errMsg := some m }

/-- The client's stream-event accumulation over the in-progress assistant
message: the `switch (eventType)` of `handleSendMessage`
(App.jsx lines 331-454), restricted to its effect on the last message.
`job_started`, `title_complete`, `complete` and `error` leave the message
untouched (they only update loading spinners / reload lists). -/
def applyC (m : MsgV D) : Ev D → MsgV D
  | .job_started _ => m
  | .stage1_start => { m with loading := { m.loading with s1 := true } }
  | .stage1_progress p =>
    { m with progress := some p, loading := { m.loading with s1 := true } }
  | .stage1_complete d =>
    { m with stage1 := some d, loading := { m.loading with s1 := false } }
  | .stage2_start => { m with loading := { m.loading with s2 := true } }
  | .stage2_progress p =>
    { m with progress := some p, loading := { m.loading with s2 := true } }
  | .stage2_complete d md =>
    { m with stage2 := some d, metadata := some md, loading := { m.loading with s2 := false } }
  | .stage3_start => { m with loading := { m.loading with s3 := true } }
  | .stage3_progress p =>
    { m with progress := some p, loading := { m.loading with s3 := true } }
  | .stage3_complete d =>
    { m with stage3 := some d, loading := { m.loading with s3 := false } }
  | .title_complete => m
  | .complete => m
  | .error _ => m

/-- Modelled from the spec: which event may be emitted at which job status
(the emission order of §6 over the state machine of §4.1). -/
def okEv (st : String) : Ev D → Bool
  | .job_started _ => st == "pending"
  | .stage1_start => st == "pending"
  | .stage1_progress _ => st == "stage1_running"
  | .stage1_complete _ => st == "stage1_running"
  | .stage2_start => st == "stage1_complete"
  | .stage2_progress _ => st == "stage2_running"
  | .stage2_complete _ _ => st == "stage2_running"
  | .stage3_start => st == "stage2_complete"
  | .stage3_progress _ => st == "stage3_running"
  | .stage3_complete _ => st == "stage3_running"
  | .title_complete => st == "complete"
  | .complete => st == "complete"
  | .error _ => !(st == "complete" || st == "error" || st == "cancelled")

/-- A sequence of events is a valid emission from job state `j` when each
event is admissible at the status reached so far. -/
def validFromJ (j : JobB D) : List (Ev D) → Bool
  | [] => true
  | e :: es => okEv j.status e && validFromJ (applyB j e) es

/-- Whether an event is the `error` event. -/
def isErrEv : Ev D → Bool
  | .error _ => true
  | _ => false

/-- The freshly created job snapshot. -/
def jobInit : JobB D :=
  ⟨"pending", none, none, none, none, none, none⟩

/-- The placeholder assistant message optimistically appended by
`handleSendMessage` (App.jsx lines 308-319): all stage fields null, all
loading flags false, no progress yet. -/
def msgInit : MsgV D :=
  ⟨"assistant", none, none, none, none, none, ⟨false, false, false⟩, none⟩

/-- `cancel(jobId)` as it affects the snapshot: sets the status to
`cancelled`; no stream event is emitted for it (there is none in §6's event
list, and the client switch has no case for one). -/
def cancelJobB (j : JobB D) : JobB D :=
  { j with status := "cancelled" }

/-- The five data components the spec requires the two views to agree on
(everything except the loading flags). -/
def dataOf (m : MsgV D) :
    Option D × Option D × Option D × Option D × Option D :=
  (m.stage1, m.stage2, m.stage3, m.metadata, m.progress)

/-! ## Optimistic update and rollback (App.jsx, handleSendMessage) -/

/-- The optimistically appended user message
(App.jsx line 301: `{ role: 'user', content }`). -/
def userMsg (c : String) : MsgV D :=
  ⟨"user", some c, none, none, none, none, ⟨false, false, false⟩, none⟩

/-- Replace the last element of a list, if any. -/
def updateLast (f : α → α) : List α → List α
  | [] => []
  | [a] => [f a]
  | a :: b :: rest => a :: updateLast f (b :: rest)

/-- One stream event applied to the conversation's message list: every
mutating case of the `handleSendMessage` switch writes through
`messages[messages.length - 1]`, i.e. it only ever rewrites the last
message. -/
def applyL (ms : List (MsgV D)) (e : Ev D) : List (MsgV D) :=
  updateLast (fun m => applyC m e) ms

/-- The rollback in `handleSendMessage`'s catch block (App.jsx line 461):
`messages.slice(0, -2)` drops the two optimistically appended messages. -/
def rollback (ms : List (MsgV D)) : List (MsgV D) :=
  ms.dropLast.dropLast

/-! ## Cancellation and the conversation store (spec §4.7, §8) -/

/-- Modelled from the spec: the job-engine state visible to claim C6 —
the job status, whether the conversation store's `appendMessage` has been
invoked for this job, and the provider results written back so far
(backend not under src/). -/
structure CState where
  status : JStatus
  appended : Bool
  results : List String
  deriving DecidableEq

/-- Modelled from the spec: one step of the deliberation engine (backend
not under src/).  `appendMessage` is invoked exactly on the success
transition `stage3_running → complete`; `cancel`/`error` interrupt any
non-terminal state; a provider result arriving after cancellation is
discarded (`lateResult` changes nothing). -/
inductive EStep : CState → CState → Prop where
  | start (a : Bool) (r : List String) :
    EStep ⟨.pending, a, r⟩ ⟨.stage1_running, a, r⟩
  | writeResult (res : String) (a : Bool) (r : List String) :
    EStep ⟨.stage1_running, a, r⟩ ⟨.stage1_running, a, res :: r⟩
  | s1done (a : Bool) (r : List String) :
    EStep ⟨.stage1_running, a, r⟩ ⟨.stage1_complete, a, r⟩
  | s2start (a : Bool) (r : List String) :
    EStep ⟨.stage1_complete, a, r⟩ ⟨.stage2_running, a, r⟩
  | s2done (a : Bool) (r : List String) :
    EStep ⟨.stage2_running, a, r⟩ ⟨.stage2_complete, a, r⟩
  | s3start (a : Bool) (r : List String) :
    EStep ⟨.stage2_complete, a, r⟩ ⟨.stage3_running, a, r⟩
  | finish (a : Bool) (r : List String) :
    EStep ⟨.stage3_running, a, r⟩ ⟨.complete, true, r⟩
  | cancelStep (s : JStatus) (a : Bool) (r : List String)
      (h : isTerminal s = false) : EStep ⟨s, a, r⟩ ⟨.cancelled, a, r⟩
  | errorStep (s : JStatus) (a : Bool) (r : List String)
      (h : isTerminal s = false) : EStep ⟨s, a, r⟩ ⟨.error, a, r⟩
  | lateResult (res : String) (a : Bool) (r : List String) :
    EStep ⟨.cancelled, a, r⟩ ⟨.cancelled, a, r⟩

/-- Reachability in the engine. -/
def ReachE : CState → CState → Prop :=
  Relation.ReflTransGen EStep

/-- A freshly created job: pending, nothing appended, no results. -/
def initC : CState :=
  ⟨.pending, false, []⟩

/-! ## Job controller (spec §4.7) -/

/-- Per-provider status of a stage-1 ModelResponse. -/
inductive PStatus where
  | pend
  | streaming
  | complete
  | failed
  deriving DecidableEq

/-- The job record the controller operates on. -/
structure JobF where
  status : JStatus
  responses : List (String × PStatus)
  deriving DecidableEq

/-- Controller rejection: an explicit `InvalidTransition` with a reason. -/
inductive CtrlErr where
  | invalidTransition (reason : String)
  deriving DecidableEq

/-- Number of providers whose stage-1 response is complete. -/
def countComplete (j : JobF) : Nat :=
  (j.responses.filter fun pr => pr.2 == PStatus.complete).length

/-- Modelled from the spec: `cancel(jobId)` (§4.7, backend not under src/):
valid in any non-terminal state, sets status `cancelled`; on a terminal job
it reports the conflict instead of succeeding again. -/
def cancelOp (j : JobF) : Except CtrlErr JobF :=
  if isTerminal j.status then .error (.invalidTransition "job already terminal")
  else .ok { j with status := .cancelled }

/-- Mark one provider's response failed. -/
def markFailed (p : String) (rs : List (String × PStatus)) :
    List (String × PStatus) :=
  rs.map fun pr => if pr.1 = p then (pr.1, .failed) else pr

/-- Whether any provider is still outstanding (pending or streaming). -/
def outstanding (rs : List (String × PStatus)) : Bool :=
  rs.any fun pr => pr.2 == PStatus.pend || pr.2 == PStatus.streaming

/-- Modelled from the spec: `skip_model(jobId, provider)` (§4.7, backend not
under src/): valid only while `stage1_running`; marks the provider failed and
completes stage 1 if it was the last outstanding one. -/
def skipModelOp (j : JobF) (p : String) : Except CtrlErr JobF :=
  if j.status = .stage1_running then
    let rs := markFailed p j.responses
    let st := if outstanding rs then JStatus.stage1_running else JStatus.stage1_complete
    .ok { j with responses := rs, status := st }
  else .error (.invalidTransition "skip_model requires stage1_running")

/-- Modelled from the spec: `force_continue(jobId)` (§4.7, backend not under
src/): valid only while `stage1_running` with at least two completed
providers; finalizes stage 1 with the completed set. -/
def forceContinueOp (j : JobF) : Except CtrlErr JobF :=
  if j.status = .stage1_running then
    if 2 ≤ countComplete j then .ok { j with status := .stage1_complete }
    else .error (.invalidTransition "force_continue requires 2 completed providers")
  else .error (.invalidTransition "force_continue requires stage1_running")

/-- The job state after a control operation: replaced on success, untouched
on rejection. -/
def applyCtrl (f : JobF → Except CtrlErr JobF) (j : JobF) : JobF :=
  match f j with
  | .ok j' => j'
  | .error _ => j

/-! ## SSE stream parsing (api.js, sendMessageStream / startDebateStream) -/

/-- Character lists, the carrier for the streamed text. -/
abbrev Str := List Char

/-- `buffer.split('\n')` followed by `buffer = lines.pop()`: the pair of the
complete (newline-terminated) lines and the trailing unterminated rest. -/
def splitL : Str → List Str × Str
  | [] => ([], [])
  | c :: r =>
    if c = '\n' then
      let p := splitL r
      ([] :: p.1, p.2)
    else
      match splitL r with
      | ([], t) => ([], c :: t)
      | (l :: ls, t) => ((c :: l) :: ls, t)

/-- Processing of one line (api.js lines 149-161): lines starting with
`'data: '` have the prefix sliced off and are handed to `JSON.parse`; a
parse failure is logged and produces no event.  `parse` stands for
`JSON.parse` composed with the construction of the `(event.type, event)`
pair handed to `onEvent`: a fixed function of the line's text. -/
def emitLine (parse : Str → Option E) (l : Str) : List E :=
  if l.take 6 = "data: ".data then (parse (l.drop 6)).toList else []

/-- The reader loop of `sendMessageStream` (api.js lines 136-175, and
identically `startDebateStream` lines 361-393): each chunk is appended to
the carried-over buffer, the complete lines are emitted, the unterminated
tail becomes the new buffer; when the stream ends, the remaining buffer is
processed the same way. -/
def procStream (parse : Str → Option E) : Str → List Str → List E
  | b, [] => emitLine parse b
  | b, c :: cs =>
    let p := splitL (b ++ c)
    (p.1.map (emitLine parse)).flatten ++ procStream parse p.2 cs

/-- The whole stream processed from an empty buffer. -/
def processStream (parse : Str → Option E) (chunks : List Str) : List E :=
  procStream parse [] chunks

/-- Canonical chunking-independent semantics: split the full concatenated
content once. -/
def procContent (parse : Str → Option E) (s : Str) : List E :=
  let p := splitL s
  (p.1.map (emitLine parse)).flatten ++ emitLine parse p.2

/-- How the line split of a concatenation is assembled from the line splits
of the two halves: the first half's trailing rest fuses with the first line
of the second half. -/
def glueSplit (px py : List Str × Str) : List Str × Str :=
  match py.1 with
  | [] => (px.1, px.2 ++ py.2)
  | l :: ls => (px.1 ++ (px.2 ++ l) :: ls, py.2)

/-! ## stripMarkdown (exportPdf.js lines 229-255)

Each `.replace(regex, replacement)` of the JavaScript pipeline is embedded
as one scan pass over the character list.  Every regex of the pipeline is
deterministic at each position (the bracketed character classes exclude
their own delimiters, so greedy backtracking never revisits a choice), which
the per-pattern matchers below reproduce: a matcher consumes at least one
character and returns the replacement text together with the unconsumed
rest. -/

/-- JavaScript's `\s` class (and the characters `String.prototype.trim`
strips). -/
def isWS (c : Char) : Bool :=
  c == ' ' || c == '\t' || c == '\n' || c == '\r' ||
  c == '\x0b' || c == '\x0c' || c == ' ' || c == ' ' ||
  (0x2000 ≤ c.toNat && c.toNat ≤ 0x200A) || c == ' ' || c == ' ' ||
  c == ' ' || c == ' ' || c == '　' || c == '﻿'

/-- Unanchored global replace: try the matcher at every position, left to
right, skipping over each match (JS `String.replace` with a `g` regex).
`fuel` is instantiated with the string length, which suffices because every
match consumes at least one character. -/
def scanP (m : Str → Option (Str × Str)) : Nat → Str → Str
  | 0, s => s
  | _ + 1, [] => []
  | fuel + 1, c :: cs =>
    match m (c :: cs) with
    | some p => p.1 ++ scanP m fuel p.2
    | none => c :: scanP m fuel cs

/-- Line-anchored global replace (a `gm` regex starting with `^`): the
matcher is tried only at the start of the string or right after a `'\n'`;
the matcher reports the last character it consumed so the scan knows whether
it stands at a line start afterwards. -/
def scanA (m : Str → Option (Str × Char × Str)) : Nat → Bool → Str → Str
  | 0, _, s => s
  | _ + 1, _, [] => []
  | fuel + 1, atLS, c :: cs =>
    if atLS then
      match m (c :: cs) with
      | some p => p.1 ++ scanA m fuel (p.2.1 = '\n') p.2.2
      | none => c :: scanA m fuel (c = '\n') cs
    else c :: scanA m fuel (c = '\n') cs

/-- `/^#{1,6}\s+/gm → ''`: one to six `#` at a line start followed by at
least one whitespace character (seven or more `#` never match, since the
character after the sixth is another `#`). -/
def mHeader (s : Str) : Option (Str × Char × Str) :=
  let hashes := s.takeWhile (· = '#')
  let rest := s.dropWhile (· = '#')
  let ws := rest.takeWhile isWS
  if 1 ≤ hashes.length ∧ hashes.length ≤ 6 ∧ ws ≠ [] then
    some ([], ws.getLastD ' ', rest.dropWhile isWS)
  else none

/-- A double-delimiter emphasis regex such as `/\*\*([^*]+)\*\*/g → '$1'`:
two copies of `d`, a nonempty run free of `d`, then two more copies. -/
def mDelim2 (d : Char) : Str → Option (Str × Str)
  | c1 :: c2 :: rest =>
    if c1 = d ∧ c2 = d then
      let content := rest.takeWhile (· ≠ d)
      match rest.dropWhile (· ≠ d) with
      | _ :: e2 :: rest2 =>
        if content = [] ∨ e2 ≠ d then none else some (content, rest2)
      | _ => none
    else none
  | _ => none

/-- A single-delimiter regex such as `/\*([^*]+)\*/g → '$1'`: one `d`, a
nonempty run free of `d`, then `d`. -/
def mDelim1 (d : Char) : Str → Option (Str × Str)
  | c :: rest =>
    if c = d then
      let content := rest.takeWhile (· ≠ d)
      match rest.dropWhile (· ≠ d) with
      | _ :: rest2 => if content = [] then none else some (content, rest2)
      | [] => none
    else none
  | [] => none

/-- Leftmost occurrence of three consecutive backticks: the text before it
and the text after it. -/
def findTriple : Str → Option (Str × Str)
  | c1 :: rest =>
    if c1 = '`' then
      match rest with
      | c2 :: c3 :: rest2 =>
        if c2 = '`' ∧ c3 = '`' then some ([], rest2)
        else (findTriple rest).map fun p => (c1 :: p.1, p.2)
      | _ => (findTriple rest).map fun p => (c1 :: p.1, p.2)
    else (findTriple rest).map fun p => (c1 :: p.1, p.2)
  | [] => none

/-- Fenced code block regex (three backticks, a lazy body, three
backticks), replaced by the literal text `[code block]`. -/
def mCodeBlock : Str → Option (Str × Str)
  | c1 :: c2 :: c3 :: rest =>
    if c1 = '`' ∧ c2 = '`' ∧ c3 = '`' then
      match findTriple rest with
      | some p => some ("[code block]".data, p.2)
      | none => none
    else none
  | _ => none

/-- Markdown link regex (bracketed nonempty text, parenthesized nonempty
target, keep the text). -/
def mLink : Str → Option (Str × Str)
  | c :: rest =>
    if c = '[' then
      let content := rest.takeWhile (· ≠ ']')
      match rest.dropWhile (· ≠ ']') with
      | _ :: rest2 =>
        if content = [] then none
        else
          match rest2 with
          | p :: rest3 =>
            if p = '(' then
              let url := rest3.takeWhile (· ≠ ')')
              match rest3.dropWhile (· ≠ ')') with
              | _ :: rest4 => if url = [] then none else some (content, rest4)
              | [] => none
            else none
          | [] => none
      | [] => none
    else none
  | [] => none

/-- Markdown image regex (like a link with a leading bang and possibly
empty alt text), replaced by its alt text inside an `[image: ...]` tag. -/
def mImage : Str → Option (Str × Str)
  | c1 :: c2 :: rest =>
    if c1 = '!' ∧ c2 = '[' then
      let alt := rest.takeWhile (· ≠ ']')
      match rest.dropWhile (· ≠ ']') with
      | _ :: rest2 =>
        match rest2 with
        | p :: rest3 =>
          if p = '(' then
            let url := rest3.takeWhile (· ≠ ')')
            match rest3.dropWhile (· ≠ ')') with
            | _ :: rest4 =>
              if url = [] then none
              else some ("[image: ".data ++ alt ++ [']'], rest4)
            | [] => none
          else none
        | [] => none
      | [] => none
    else none
  | _ => none

/-- Blockquote regex (a `>` at a line start followed by whitespace),
removed. -/
def mQuote : Str → Option (Str × Char × Str)
  | c :: rest =>
    if c = '>' then
      let ws := rest.takeWhile isWS
      if ws = [] then none
      else some ([], ws.getLastD ' ', rest.dropWhile isWS)
    else none
  | [] => none

/-- Horizontal-rule regex (a whole line of three or more `-`, `*` or `_`),
replaced by a literal `---`. -/
def mHr (s : Str) : Option (Str × Char × Str) :=
  let run := s.takeWhile fun c => c == '-' || c == '*' || c == '_'
  let rest := s.dropWhile fun c => c == '-' || c == '*' || c == '_'
  if 3 ≤ run.length ∧ (rest = [] ∨ rest.headD ' ' = '\n') then
    some ("---".data, run.getLastD '-', rest)
  else none

/-- Whitespace-collapse regex (three or more newlines become two). -/
def mNewlines (s : Str) : Option (Str × Str) :=
  let run := s.takeWhile (· = '\n')
  if 3 ≤ run.length then some (['\n', '\n'], s.dropWhile (· = '\n')) else none

/-- `String.prototype.trim`, left side. -/
def trimLeft (s : Str) : Str := s.dropWhile isWS

/-- `String.prototype.trim`, right side. -/
def trimRight (s : Str) : Str := (s.reverse.dropWhile isWS).reverse

/-- `String.prototype.trim`. -/
def trimB (s : Str) : Str := trimLeft (trimRight s)

/-- The `stripMarkdown` replacement pipeline on character lists, in the
exact order of exportPdf.js lines 232-254: headers, `**`, `*`, `__`, `_`,
inline code, code blocks, links, images, blockquotes, horizontal rules,
newline collapsing, final trim. -/
def stripMarkdownL (s : Str) : Str :=
  let s1 := scanA mHeader s.length true s
  let s2 := scanP (mDelim2 '*') s1.length s1
  let s3 := scanP (mDelim1 '*') s2.length s2
  let s4 := scanP (mDelim2 '_') s3.length s3
  let s5 := scanP (mDelim1 '_') s4.length s4
  let s6 := scanP (mDelim1 '`') s5.length s5
  let s7 := scanP mCodeBlock s6.length s6
  let s8 := scanP mLink s7.length s7
  let s9 := scanP mImage s8.length s8
  let s10 := scanA mQuote s9.length true s9
  let s11 := scanA mHr s10.length true s10
  let s12 := scanP mNewlines s11.length s11
  trimB s12

/-- `stripMarkdown` (exportPdf.js lines 229-255).  The `if (!text)` guard
only maps the empty string to itself, which the pipeline does anyway. -/
def stripMarkdown (text : String) : String :=
  String.mk (stripMarkdownL text.data)

/-- The characters whose absence makes every markdown replacement of the
pipeline a no-op: the pattern heads `#`, `*`, `_`, a backtick, `[`, `>`,
`-` and the newline. -/
def mdMarkers : List Char :=
  ['#', '*', '_', '`', '[', '>', '-', '\n']

/-! ## Theorems -/

/-- `filterMap` only depends on the function's values on the list. -/
theorem filterMap_ext {α β : Type _} (f g : α → Option β) :
    ∀ l : List α, (∀ a ∈ l, f a = g a) → l.filterMap f = l.filterMap g := by
  intro l h
  induction l with
  | nil => rfl
  | cons a l ih =>
    rw [List.filterMap_cons, List.filterMap_cons, h a (by simp),
      ih fun a ha => h a (by simp [ha])]

/-- Claim C1, counterexample: the polling loop's stop condition
(api.js line 309) is false at status `cancelled`, so a job whose polled
status is `cancelled` is never returned — here the loop is still polling
after 100 iterations — while `complete` does stop it.  This refutes the
claim that the stop condition is "status is complete/error/cancelled". -/
theorem C1_pollJob_cancelled_cex :
    pollStops ⟨"cancelled"⟩ = false ∧
    pollJobRun (fun _ => ⟨"cancelled"⟩) 0 100 = none ∧
    pollStops ⟨"complete"⟩ = true := by
  refine ⟨rfl, ?_, rfl⟩
  decide

/-- Claim C1, amended: `pollJob` (and the `pollJobUpdates` loop) stops
polling exactly when the fetched job's status is `complete` or `error`:
whenever the loop returns a job its status is `complete` or `error`, it
returns immediately on such a snapshot, and it never returns — polls
forever — when no fetched snapshot has one of those two statuses (in
particular for a job that stays `cancelled`). -/
theorem C1_pollJob_stops_only_complete_or_error :
    (∀ (jobs : Nat → JobC) (i fuel : Nat) (j : JobC),
        pollJobRun jobs i fuel = some j →
          j.status = "complete" ∨ j.status = "error") ∧
    (∀ (jobs : Nat → JobC) (i fuel : Nat),
        pollStops (jobs i) = true →
          pollJobRun jobs i (fuel + 1) = some (jobs i)) ∧
    (∀ (jobs : Nat → JobC) (i fuel : Nat),
        (∀ k, pollStops (jobs k) = false) → pollJobRun jobs i fuel = none) := by
  refine ⟨?_, ?_, ?_⟩
  · intro jobs i fuel
    induction fuel generalizing i with
    | zero => intro j h; simp [pollJobRun] at h
    | succ n ih =>
      intro j h
      simp only [pollJobRun] at h
      by_cases hs : pollStops (jobs i) = true
      · rw [if_pos hs] at h
        injection h with h'
        subst h'
        simpa [pollStops] using hs
      · rw [if_neg hs] at h
        exact ih (i + 1) j h
  · intro jobs i fuel h
    simp only [pollJobRun]
    rw [if_pos h]
  · intro jobs i fuel h
    induction fuel generalizing i with
    | zero => rfl
    | succ n ih =>
      simp only [pollJobRun]
      rw [if_neg (by simp [h i])]
      exact ih (i + 1)

/-- Claim C1, witness for the amended theorem at concrete inputs. -/
theorem C1_pollJob_stops_witness :
    ((⟨"complete"⟩ : JobC).status = "complete" ∨
      (⟨"complete"⟩ : JobC).status = "error") ∧
    pollJobRun (fun _ => ⟨"error"⟩) 0 3 = some ⟨"error"⟩ ∧
    pollJobRun (fun _ => ⟨"stage1_running"⟩) 0 7 = none := by
  refine ⟨?_, ?_, ?_⟩
  · exact C1_pollJob_stops_only_complete_or_error.1 (fun _ => ⟨"complete"⟩) 0 1
      ⟨"complete"⟩ (by decide)
  · exact C1_pollJob_stops_only_complete_or_error.2.1 (fun _ => ⟨"error"⟩) 0 2
      (by decide)
  · exact C1_pollJob_stops_only_complete_or_error.2.2
      (fun _ => ⟨"stage1_running"⟩) 0 7 (fun k => rfl)

/-- Claim C3: on the spec's concrete example — evaluators X, Y, Z with
parsed rankings X:[Y,Z,X], Y:[Y,X,Z], Z:[X,Y,Z] — the aggregator returns
average ranks Y = 4/3, X = 2, Z = 8/3, each with `rankings_count = 3`, in
the output order Y, X, Z. -/
theorem C3_aggregate_concrete :
    aggregateRankings [("X", "X"), ("Y", "Y"), ("Z", "Z")]
      [("X", ["Y", "Z", "X"]), ("Y", ["Y", "X", "Z"]), ("Z", ["X", "Y", "Z"])] =
      [⟨"Y", mkRat 4 3, 3⟩, ⟨"X", mkRat 2 1, 3⟩, ⟨"Z", mkRat 8 3, 3⟩] ∧
    mkRat 4 3 = (4 : Rat) / 3 ∧ mkRat 2 1 = 2 ∧ mkRat 8 3 = (8 : Rat) / 3 := by
  refine ⟨by decide, ?_, ?_, ?_⟩ <;> rw [Rat.mkRat_eq_div] <;> norm_num

/-- Claim C4: the aggregator is invariant under any permutation of the
evaluator list — the whole output (hence every provider's `average_rank`
and `rankings_count`, and the output order) is unchanged. -/
theorem C4_aggregate_perm_invariant :
    ∀ (labelToModel : List (String × String))
      (r1 r2 : List (String × List String)),
      r1.Perm r2 →
      aggregateRankings labelToModel r1 = aggregateRankings labelToModel r2 := by
  intro lmap r1 r2 hperm
  have key : ∀ label : String,
      (labelPositions label r1).length = (labelPositions label r2).length ∧
        (labelPositions label r1).sum = (labelPositions label r2).sum := by
    intro label
    have hp : (labelPositions label r1).Perm (labelPositions label r2) :=
      hperm.filterMap _
    exact ⟨hp.length_eq, hp.sum_eq⟩
  simp only [aggregateRankings]
  congr 1
  apply filterMap_ext
  intro lm _
  rw [(key lm.1).1, (key lm.1).2]

/-- Claim C4, witness: permutation invariance at a concrete evaluator pair. -/
theorem C4_aggregate_perm_witness :
    ([("e1", ["A"]), ("e2", ["A", "B"])] :
        List (String × List String)).Perm
      [("e2", ["A", "B"]), ("e1", ["A"])] ∧
    aggregateRankings [("A", "mA"), ("B", "mB")]
        [("e1", ["A"]), ("e2", ["A", "B"])] =
      aggregateRankings [("A", "mA"), ("B", "mB")]
        [("e2", ["A", "B"]), ("e1", ["A"])] :=
  ⟨by decide,
    C4_aggregate_perm_invariant [("A", "mA"), ("B", "mB")] _ _ (by decide)⟩

/-- Claim C5: along every transition of the state machine the source state
is non-terminal (so no transition leaves `complete`, `error` or
`cancelled`) and the position in the defined order never decreases unless
the target is a terminal interruption; moreover `error` and `cancelled` are
reachable from every non-terminal state. -/
theorem C5_status_monotone :
    (∀ s s' : JStatus, Step s s' →
        isTerminal s = false ∧
          (statusPos s ≤ statusPos s' ∨ isTerminal s' = true)) ∧
    (∀ s : JStatus, isTerminal s = false →
        Step s .error ∧ Step s .cancelled) := by
  constructor
  · intro s s' h
    cases h with
    | s01 => exact ⟨rfl, Or.inl (by decide)⟩
    | s12 => exact ⟨rfl, Or.inl (by decide)⟩
    | s23 => exact ⟨rfl, Or.inl (by decide)⟩
    | s34 => exact ⟨rfl, Or.inl (by decide)⟩
    | s45 => exact ⟨rfl, Or.inl (by decide)⟩
    | s56 => exact ⟨rfl, Or.inl (by decide)⟩
    | toError s h => exact ⟨h, Or.inr rfl⟩
    | toCancelled s h => exact ⟨h, Or.inr rfl⟩
  · intro s h
    exact ⟨Step.toError s h, Step.toCancelled s h⟩

/-- Claim C5, witness at the first forward transition and at a concrete
interruption. -/
theorem C5_status_monotone_witness :
    (isTerminal .pending = false ∧
      (statusPos .pending ≤ statusPos .stage1_running ∨
        isTerminal .stage1_running = true)) ∧
    Step .stage3_running .cancelled :=
  ⟨C5_status_monotone.1 .pending .stage1_running Step.s01,
    (C5_status_monotone.2 .stage3_running (by decide)).2⟩

/-- Once `appendMessage` has run for a job, that job is `complete`: the
invariant behind claim C6. -/
theorem reachE_appended_complete :
    ∀ st : CState, ReachE initC st → st.appended = true →
      st.status = .complete := by
  intro st h
  induction h with
  | refl => intro hc; simp [initC] at hc
  | tail hab hbc ih =>
    intro hc
    cases hbc with
    | start a r => exact absurd (ih hc) (by simp)
    | writeResult res a r => exact absurd (ih hc) (by simp)
    | s1done a r => exact absurd (ih hc) (by simp)
    | s2start a r => exact absurd (ih hc) (by simp)
    | s2done a r => exact absurd (ih hc) (by simp)
    | s3start a r => exact absurd (ih hc) (by simp)
    | finish a r => rfl
    | cancelStep s a r h =>
      have hs : s = .complete := ih hc
      subst hs
      exact absurd h (by decide)
    | errorStep s a r h =>
      have hs : s = .complete := ih hc
      subst hs
      exact absurd h (by decide)
    | lateResult res a r => exact absurd (ih hc) (by simp)

/-- Claim C6: in every run of the engine, a job that is `cancelled` or
`error` has never invoked the conversation store's `appendMessage`; every
step out of a cancelled state leaves the state unchanged (a late provider
result is discarded, never written back); and `cancel` is available during
`stage3_running`, yielding status `cancelled`. -/
theorem C6_cancelled_never_appends :
    (∀ st : CState, ReachE initC st →
        st.status = .cancelled ∨ st.status = .error → st.appended = false) ∧
    (∀ st st' : CState, EStep st st' → st.status = .cancelled → st' = st) ∧
    (∀ (a : Bool) (r : List String),
        EStep ⟨.stage3_running, a, r⟩ ⟨.cancelled, a, r⟩) := by
  refine ⟨?_, ?_, ?_⟩
  · intro st h hs
    cases hA : st.appended
    · rfl
    · have hcomp := reachE_appended_complete st h hA
      rcases hs with hs | hs <;> rw [hcomp] at hs <;> exact absurd hs (by decide)
  · intro st st' hstep hc
    cases hstep with
    | start a r => exact absurd hc (by simp)
    | writeResult res a r => exact absurd hc (by simp)
    | s1done a r => exact absurd hc (by simp)
    | s2start a r => exact absurd hc (by simp)
    | s2done a r => exact absurd hc (by simp)
    | s3start a r => exact absurd hc (by simp)
    | finish a r => exact absurd hc (by simp)
    | cancelStep s a r h =>
      have hs : s = JStatus.cancelled := hc
      subst hs
      exact absurd h (by decide)
    | errorStep s a r h =>
      have hs : s = JStatus.cancelled := hc
      subst hs
      exact absurd h (by decide)
    | lateResult res a r => rfl
  · intro a r
    exact EStep.cancelStep .stage3_running a r rfl

/-- Claim C6, witness: a job cancelled from `pending` has not appended, and
a late result stepping out of a cancelled state changes nothing. -/
theorem C6_cancelled_never_appends_witness :
    (⟨JStatus.cancelled, false, []⟩ : CState).appended = false ∧
    (⟨JStatus.cancelled, true, ["x"]⟩ : CState) =
      ⟨JStatus.cancelled, true, ["x"]⟩ := by
  constructor
  · exact C6_cancelled_never_appends.1 ⟨.cancelled, false, []⟩
      (Relation.ReflTransGen.single (EStep.cancelStep .pending false [] rfl))
      (Or.inl rfl)
  · exact C6_cancelled_never_appends.2.1 ⟨.cancelled, true, ["x"]⟩
      ⟨.cancelled, true, ["x"]⟩ (EStep.lateResult "y" true ["x"]) rfl

/-- Claim C7: each control operation issued against a job not in its
required state fails with an explicit `InvalidTransition` reason and leaves
the job unchanged; on an already-terminal job all three report the conflict
instead of succeeding again; `force_continue` is additionally rejected while
fewer than two providers are complete. -/
theorem C7_control_ops_invalid_transition :
    ∀ (j : JobF) (p : String),
      (isTerminal j.status = true →
        (∃ r, cancelOp j = .error (.invalidTransition r)) ∧
        (∃ r, skipModelOp j p = .error (.invalidTransition r)) ∧
        (∃ r, forceContinueOp j = .error (.invalidTransition r)) ∧
        applyCtrl cancelOp j = j ∧
        applyCtrl (fun j => skipModelOp j p) j = j ∧
        applyCtrl forceContinueOp j = j) ∧
      (j.status ≠ .stage1_running →
        (∃ r, skipModelOp j p = .error (.invalidTransition r)) ∧
        (∃ r, forceContinueOp j = .error (.invalidTransition r)) ∧
        applyCtrl (fun j => skipModelOp j p) j = j ∧
        applyCtrl forceContinueOp j = j) ∧
      (countComplete j < 2 →
        (∃ r, forceContinueOp j = .error (.invalidTransition r)) ∧
        applyCtrl forceContinueOp j = j) := by
  intro j p
  have hskip : j.status ≠ .stage1_running →
      skipModelOp j p =
        .error (.invalidTransition "skip_model requires stage1_running") := by
    intro h; simp [skipModelOp, h]
  have hforce : j.status ≠ .stage1_running →
      forceContinueOp j =
        .error (.invalidTransition "force_continue requires stage1_running") := by
    intro h; simp [forceContinueOp, h]
  refine ⟨?_, ?_, ?_⟩
  · intro hT
    have hns : j.status ≠ .stage1_running := by
      intro he; rw [he] at hT; exact absurd hT (by decide)
    refine ⟨⟨"job already terminal", by simp [cancelOp, hT]⟩,
      ⟨_, hskip hns⟩, ⟨_, hforce hns⟩, ?_, ?_, ?_⟩
    · simp [applyCtrl, cancelOp, hT]
    · simp [applyCtrl, hskip hns]
    · simp [applyCtrl, hforce hns]
  · intro hns
    refine ⟨⟨_, hskip hns⟩, ⟨_, hforce hns⟩, ?_, ?_⟩
    · simp [applyCtrl, hskip hns]
    · simp [applyCtrl, hforce hns]
  · intro hcc
    by_cases hs : j.status = .stage1_running
    · have h2 : ¬ 2 ≤ countComplete j := by omega
      refine ⟨⟨"force_continue requires 2 completed providers", ?_⟩, ?_⟩
      · simp [forceContinueOp, hs, h2]
      · simp [applyCtrl, forceContinueOp, hs, h2]
    · exact ⟨⟨_, hforce hs⟩, by simp [applyCtrl, hforce hs]⟩

/-- Claim C7, witness: the rejections at a terminal job and at a pending
job. -/
theorem C7_control_ops_witness :
    (∃ r, cancelOp ⟨JStatus.complete, []⟩ =
      Except.error (CtrlErr.invalidTransition r)) ∧
    applyCtrl forceContinueOp ⟨JStatus.pending, []⟩ =
      ⟨JStatus.pending, []⟩ := by
  constructor
  · exact ((C7_control_ops_invalid_transition ⟨.complete, []⟩ "m").1
      (by decide)).1
  · exact ((C7_control_ops_invalid_transition ⟨.pending, []⟩ "m").2.1
      (by decide)).2.2.2

/-- `updateLast` on a list with at least two elements keeps the head. -/
theorem updateLast_cons (f : α → α) (x : α) (l : List α) (h : l ≠ []) :
    updateLast f (x :: l) = x :: updateLast f l := by
  cases l with
  | nil => exact absurd rfl h
  | cons y ys => rfl

/-- `updateLast` over a list ending in two pinned elements only rewrites the
final one. -/
theorem updateLast_append_pair (f : α → α) (ms : List α) (a b : α) :
    updateLast f (ms ++ [a, b]) = ms ++ [a, f b] := by
  induction ms with
  | nil => rfl
  | cons x xs ih =>
    rw [List.cons_append, updateLast_cons f x (xs ++ [a, b]) (by simp), ih,
      List.cons_append]

/-- Folding stream events over a message list ending in the two
optimistically appended messages only ever rewrites the placeholder
assistant message. -/
theorem foldl_applyL {D : Type} (events : List (Ev D)) :
    ∀ (prev : List (MsgV D)) (u x : MsgV D),
      events.foldl applyL (prev ++ [u, x]) =
        prev ++ [u, events.foldl applyC x] := by
  induction events with
  | nil => intro prev u x; rfl
  | cons e es ih =>
    intro prev u x
    rw [List.foldl_cons, List.foldl_cons]
    have h1 : applyL (prev ++ [u, x]) e = prev ++ [u, applyC x e] :=
      updateLast_append_pair _ prev u x
    rw [h1, ih]

/-- Claim C8: if `sendMessageStream` throws after `handleSendMessage`
optimistically appended the user message and the placeholder assistant
message — no matter which stream events were handled in between — the
rollback `messages.slice(0, -2)` restores exactly the prior message list,
for every prior list. -/
theorem C8_optimistic_rollback :
    ∀ (D : Type) (prev : List (MsgV D)) (c : String) (events : List (Ev D)),
      rollback (events.foldl applyL (prev ++ [userMsg c, msgInit])) = prev := by
  intro D prev c events
  rw [foldl_applyL events prev (userMsg c) msgInit]
  have h2 : prev ++ [userMsg c, events.foldl applyC msgInit] =
      (prev ++ [userMsg c]) ++ [events.foldl applyC msgInit] := by simp
  rw [rollback, h2, List.dropLast_concat, List.dropLast_concat]

/-- One admissible non-error event keeps the polled view and the
stream-accumulated view in lockstep. -/
theorem viewJ_applyB_step {D : Type} (j : JobB D) (e : Ev D)
    (hok : okEv j.status e = true) (herr : isErrEv e = false) :
    createAssistantMessageFromJob (applyB j e) =
      applyC (createAssistantMessageFromJob j) e := by
  cases e with
  | job_started id =>
    have hst : j.status = "pending" := by simpa [okEv] using hok
    simp only [applyB, applyC, createAssistantMessageFromJob]
    rw [hst]
  | stage1_start =>
    have hst : j.status = "pending" := by simpa [okEv] using hok
    simp only [applyB, applyC, createAssistantMessageFromJob]
    rw [hst]
    rfl
  | stage1_progress p =>
    have hst : j.status = "stage1_running" := by simpa [okEv] using hok
    simp only [applyB, applyC, createAssistantMessageFromJob]
    rw [hst]
    rfl
  | stage1_complete d =>
    have hst : j.status = "stage1_running" := by simpa [okEv] using hok
    simp only [applyB, applyC, createAssistantMessageFromJob]
    rw [hst]
    rfl
  | stage2_start =>
    have hst : j.status = "stage1_complete" := by simpa [okEv] using hok
    simp only [applyB, applyC, createAssistantMessageFromJob]
    rw [hst]
    rfl
  | stage2_progress p =>
    have hst : j.status = "stage2_running" := by simpa [okEv] using hok
    simp only [applyB, applyC, createAssistantMessageFromJob]
    rw [hst]
    rfl
  | stage2_complete d m =>
    have hst : j.status = "stage2_running" := by simpa [okEv] using hok
    simp only [applyB, applyC, createAssistantMessageFromJob]
    rw [hst]
    rfl
  | stage3_start =>
    have hst : j.status = "stage2_complete" := by simpa [okEv] using hok
    simp only [applyB, applyC, createAssistantMessageFromJob]
    rw [hst]
    rfl
  | stage3_progress p =>
    have hst : j.status = "stage3_running" := by simpa [okEv] using hok
    simp only [applyB, applyC, createAssistantMessageFromJob]
    rw [hst]
    rfl
  | stage3_complete d =>
    have hst : j.status = "stage3_running" := by simpa [okEv] using hok
    simp only [applyB, applyC, createAssistantMessageFromJob]
    rw [hst]
    rfl
  | title_complete =>
    simp only [applyB, applyC, createAssistantMessageFromJob]
  | complete =>
    have hst : j.status = "complete" := by simpa [okEv] using hok
    simp only [applyB, applyC, createAssistantMessageFromJob]
    rw [hst]
  | error msg => simp [isErrEv] at herr

/-- Along a valid error-free event sequence the polled view equals the
stream-accumulated view, loading flags included. -/
theorem viewJ_fold {D : Type} :
    ∀ (evs : List (Ev D)) (j : JobB D),
      validFromJ j evs = true → evs.all (fun e => !isErrEv e) = true →
      createAssistantMessageFromJob (evs.foldl applyB j) =
        evs.foldl applyC (createAssistantMessageFromJob j) := by
  intro evs
  induction evs with
  | nil => intro j _ _; rfl
  | cons e es ih =>
    intro j hv hne
    simp only [validFromJ, Bool.and_eq_true] at hv
    simp only [List.all_cons, Bool.and_eq_true] at hne
    rw [List.foldl_cons, List.foldl_cons,
      ← viewJ_applyB_step j e hv.1 (by simpa using hne.1)]
    exact ih (applyB j e) hv.2 hne.2

/-- Every event — the `error` event included — updates the data components
of the two views identically. -/
theorem dataOf_applyB_step {D : Type} (j : JobB D) (m : MsgV D) (e : Ev D)
    (h : dataOf (createAssistantMessageFromJob j) = dataOf m) :
    dataOf (createAssistantMessageFromJob (applyB j e)) =
      dataOf (applyC m e) := by
  cases e <;> simp_all [applyB, applyC, createAssistantMessageFromJob, dataOf]

/-- Data-component agreement is preserved by folding any event sequence. -/
theorem dataOf_fold {D : Type} :
    ∀ (evs : List (Ev D)) (j : JobB D) (m : MsgV D),
      dataOf (createAssistantMessageFromJob j) = dataOf m →
      dataOf (createAssistantMessageFromJob (evs.foldl applyB j)) =
        dataOf (evs.foldl applyC m) := by
  intro evs
  induction evs with
  | nil => intro j m h; exact h
  | cons e es ih =>
    intro j m h
    rw [List.foldl_cons, List.foldl_cons]
    exact ih (applyB j e) (applyC m e) (dataOf_applyB_step j m e h)

/-- Claim C2, counterexample: cancel a job right after `stage1_start`.  The
event prefix is valid, yet the polled view of the cancelled snapshot (all
loading flags false — `cancelled` is missing from `statusToLoading`)
differs from the view accumulated from the same events (stage-1 still
loading, since no event reports the cancellation). -/
theorem C2_snapshot_stream_cancelled_cex :
    validFromJ (jobInit : JobB Unit) [Ev.job_started "j", Ev.stage1_start] =
      true ∧
    createAssistantMessageFromJob
        (cancelJobB
          ([Ev.job_started "j", Ev.stage1_start].foldl applyB
            (jobInit : JobB Unit))) ≠
      [Ev.job_started "j", Ev.stage1_start].foldl applyC
        (msgInit : MsgV Unit) := by
  exact ⟨by decide, by decide⟩

/-- Claim C2, amended: along every valid event sequence the polled view
`createAssistantMessageFromJob (get jobId)` and the view folded from the
stream events agree on `stage1`, `stage2`, `stage3`, `metadata` and
`progress` — also after a cancellation, whose snapshot mutation touches only
the status.  Full agreement including the per-stage loading flags holds for
every valid sequence free of the `error` event; a cancelled or errored job
whose interruption arrived while a stage was running is exactly where the
loading flags of the two views part ways. -/
theorem C2_snapshot_stream_agreement :
    ∀ (D : Type) (evs : List (Ev D)),
      validFromJ (jobInit : JobB D) evs = true →
      (dataOf (createAssistantMessageFromJob
            (evs.foldl applyB (jobInit : JobB D))) =
          dataOf (evs.foldl applyC (msgInit : MsgV D)) ∧
        dataOf (createAssistantMessageFromJob
            (cancelJobB (evs.foldl applyB (jobInit : JobB D)))) =
          dataOf (evs.foldl applyC (msgInit : MsgV D)) ∧
        (evs.all (fun e => !isErrEv e) = true →
          createAssistantMessageFromJob (evs.foldl applyB (jobInit : JobB D)) =
            evs.foldl applyC (msgInit : MsgV D))) := by
  intro D evs hv
  have hbase : createAssistantMessageFromJob (jobInit : JobB D) = msgInit := rfl
  have hdata := dataOf_fold evs jobInit msgInit (by rw [hbase])
  refine ⟨hdata, hdata, ?_⟩
  intro hne
  have h := viewJ_fold evs jobInit hv hne
  rw [hbase] at h
  exact h

/-- Claim C2, witness: the amended agreement at a concrete valid run
through all three stages. -/
theorem C2_snapshot_stream_witness :
    dataOf (createAssistantMessageFromJob
        (([Ev.job_started "j", Ev.stage1_start, Ev.stage1_progress (),
            Ev.stage1_complete (), Ev.stage2_start, Ev.stage2_complete () (),
            Ev.stage3_start, Ev.stage3_complete (), Ev.complete] :
              List (Ev Unit)).foldl applyB jobInit)) =
      dataOf (([Ev.job_started "j", Ev.stage1_start, Ev.stage1_progress (),
          Ev.stage1_complete (), Ev.stage2_start, Ev.stage2_complete () (),
          Ev.stage3_start, Ev.stage3_complete (), Ev.complete] :
            List (Ev Unit)).foldl applyC msgInit) ∧
    createAssistantMessageFromJob
        (([Ev.job_started "j", Ev.stage1_start, Ev.stage1_progress (),
            Ev.stage1_complete (), Ev.stage2_start, Ev.stage2_complete () (),
            Ev.stage3_start, Ev.stage3_complete (), Ev.complete] :
              List (Ev Unit)).foldl applyB jobInit) =
      ([Ev.job_started "j", Ev.stage1_start, Ev.stage1_progress (),
          Ev.stage1_complete (), Ev.stage2_start, Ev.stage2_complete () (),
          Ev.stage3_start, Ev.stage3_complete (), Ev.complete] :
            List (Ev Unit)).foldl applyC msgInit := by
  have h := C2_snapshot_stream_agreement Unit
    [Ev.job_started "j", Ev.stage1_start, Ev.stage1_progress (),
      Ev.stage1_complete (), Ev.stage2_start, Ev.stage2_complete () (),
      Ev.stage3_start, Ev.stage3_complete (), Ev.complete] (by decide)
  exact ⟨h.1, h.2.2 (by decide)⟩

/-- A newline-free string splits into no complete line and itself as rest. -/
theorem splitL_no_newline : ∀ s : Str, '\n' ∉ s → splitL s = ([], s) := by
  intro s
  induction s with
  | nil => intro h; rfl
  | cons c r ih =>
    intro h
    have hc : ¬ c = '\n' := fun hh => h (hh ▸ List.mem_cons_self c r)
    have hr : '\n' ∉ r := fun hh => h (List.mem_cons_of_mem c hh)
    simp only [splitL, if_neg hc, ih hr]

/-- The rest left by the line split never contains a newline. -/
theorem splitL_trail_no_newline : ∀ s : Str, '\n' ∉ (splitL s).2 := by
  intro s
  induction s with
  | nil => simp [splitL]
  | cons c r ih =>
    by_cases hc : c = '\n'
    · simpa [splitL, hc] using ih
    · simp only [splitL, if_neg hc]
      cases hp : splitL r with
      | mk lines t =>
        rw [hp] at ih
        cases lines with
        | nil =>
          intro hmem
          rcases List.mem_cons.mp hmem with h1 | h1
          · exact hc h1.symm
          · exact ih h1
        | cons l ls => exact ih

/-- Line-splitting a concatenation glues the halves' splits at the seam. -/
theorem splitL_append :
    ∀ x y : Str, splitL (x ++ y) = glueSplit (splitL x) (splitL y) := by
  intro x y
  induction x with
  | nil =>
    cases hpy : splitL y with
    | mk ly ty => cases ly <;> simp [glueSplit, splitL, hpy]
  | cons c x' ih =>
    by_cases hc : c = '\n'
    · subst hc
      simp only [List.cons_append, splitL, if_pos rfl]
      cases hpx : splitL x' with
      | mk lx tx =>
        cases hpy : splitL y with
        | mk ly ty => cases ly <;> simp [glueSplit, ih, hpx, hpy]
    · simp only [List.cons_append, splitL, if_neg hc]
      cases hpx : splitL x' with
      | mk lx tx =>
        cases hpy : splitL y with
        | mk ly ty =>
          cases lx <;> cases ly <;>
            simp [glueSplit, ih, hpx, hpy, List.cons_append]

/-- Peeling the complete lines of an initial segment off the canonical
content processing. -/
theorem procContent_split {E : Type} (parse : Str → Option E) (x y : Str) :
    procContent parse (x ++ y) =
      ((splitL x).1.map (emitLine parse)).flatten ++
        procContent parse ((splitL x).2 ++ y) := by
  have h2 : splitL ((splitL x).2 ++ y) =
      glueSplit ([], (splitL x).2) (splitL y) := by
    rw [splitL_append, splitL_no_newline _ (splitL_trail_no_newline x)]
  simp only [procContent, splitL_append x y, h2]
  cases hpx : splitL x with
  | mk lx tx =>
    cases hpy : splitL y with
    | mk ly ty => cases ly <;> simp [glueSplit]

/-- The reader loop computes the canonical content function of the
concatenated stream, whatever the chunking. -/
theorem procStream_eq_content {E : Type} (parse : Str → Option E) :
    ∀ (cs : List Str) (b : Str), '\n' ∉ b →
      procStream parse b cs = procContent parse (b ++ cs.flatten) := by
  intro cs
  induction cs with
  | nil =>
    intro b hb
    simp [procStream, procContent, splitL_no_newline b hb]
  | cons c cs ih =>
    intro b hb
    simp only [procStream, List.flatten_cons]
    rw [ih _ (splitL_trail_no_newline (b ++ c)), ← List.append_assoc]
    exact (procContent_split parse (b ++ c) cs.flatten).symm

/-- Claim C9: the SSE parsing loop of `sendMessageStream` (and of
`startDebateStream`) is chunking-invariant — for any two chunkings of the
same byte stream, the sequence of events handed to `onEvent` is identical,
because it is the canonical function of the concatenated content: the
complete newline-terminated `data: ` lines plus the one trailing
unterminated `data: ` line, parsed in order. -/
theorem C9_sse_chunking_invariant :
    ∀ (E : Type) (parse : Str → Option E) (c1 c2 : List Str),
      c1.flatten = c2.flatten →
      processStream parse c1 = processStream parse c2 := by
  intro E parse c1 c2 h
  show procStream parse [] c1 = procStream parse [] c2
  rw [procStream_eq_content parse c1 [] (by simp),
    procStream_eq_content parse c2 [] (by simp)]
  simp only [List.nil_append, h]

/-- Claim C9, witness: two concrete chunkings of the same stream produce the
same events. -/
theorem C9_sse_chunking_witness :
    (["data: a\nda".data, "ta: b".data] : List Str).flatten =
      (["data: a\ndata: b".data] : List Str).flatten ∧
    processStream (fun s => some (String.mk s))
        ["data: a\nda".data, "ta: b".data] =
      processStream (fun s => some (String.mk s))
        ["data: a\ndata: b".data] :=
  ⟨by rfl, C9_sse_chunking_invariant String (fun s => some (String.mk s))
    ["data: a\nda".data, "ta: b".data] ["data: a\ndata: b".data] (by rfl)⟩

/-- Claim C10, counterexample: `stripMarkdown` is not idempotent.  On
`"# # x"` one pass strips only the first `"# "` (the regex consumes the
match and resumes after it), leaving `"# x"`, which a second pass strips
again to `"x"`. -/
theorem C10_stripMarkdown_not_idempotent_cex :
    stripMarkdown "# # x" = "# x" ∧
    stripMarkdown (stripMarkdown "# # x") = "x" ∧
    stripMarkdown (stripMarkdown "# # x") ≠ stripMarkdown "# # x" := by
  refine ⟨by decide, by decide, by decide⟩

/-- Unpacking of non-membership in the marker list. -/
theorem not_marker {c : Char} (h : c ∉ mdMarkers) :
    ¬c = '#' ∧ ¬c = '*' ∧ ¬c = '_' ∧ ¬c = '`' ∧ ¬c = '[' ∧ ¬c = '>' ∧
      ¬c = '-' ∧ ¬c = '\n' := by
  simpa [mdMarkers] using h

/-- The unanchored scan is the identity when the matcher never fires on any
marker-free suffix. -/
theorem scanP_id (m : Str → Option (Str × Str)) (P : Char → Prop)
    (hm : ∀ t : Str, (∀ c ∈ t, P c) → m t = none) :
    ∀ (fuel : Nat) (s : Str), (∀ c ∈ s, P c) → scanP m fuel s = s := by
  intro fuel
  induction fuel with
  | zero => intro s h; rfl
  | succ n ih =>
    intro s h
    cases s with
    | nil => rfl
    | cons c cs =>
      simp only [scanP, hm _ h]
      rw [ih cs fun a ha => h a (List.mem_cons_of_mem c ha)]

/-- The anchored scan is the identity under the same condition. -/
theorem scanA_id (m : Str → Option (Str × Char × Str)) (P : Char → Prop)
    (hm : ∀ t : Str, (∀ c ∈ t, P c) → m t = none) :
    ∀ (fuel : Nat) (b : Bool) (s : Str),
      (∀ c ∈ s, P c) → scanA m fuel b s = s := by
  intro fuel
  induction fuel with
  | zero => intro b s h; rfl
  | succ n ih =>
    intro b s h
    cases s with
    | nil => rfl
    | cons c cs =>
      have hrec := ih (decide (c = '\n')) cs
        fun a ha => h a (List.mem_cons_of_mem c ha)
      cases b with
      | false =>
        show c :: scanA m n (decide (c = '\n')) cs = c :: cs
        rw [hrec]
      | true =>
        show (match m (c :: cs) with
          | some p => p.1 ++ scanA m n (decide (p.2.1 = '\n')) p.2.2
          | none => c :: scanA m n (decide (c = '\n')) cs) = c :: cs
        rw [hm _ h]
        show c :: scanA m n (decide (c = '\n')) cs = c :: cs
        rw [hrec]

/-- The header matcher fires only on a leading `#`. -/
theorem mHeader_none (t : Str) (h : ∀ c ∈ t, c ∉ mdMarkers) :
    mHeader t = none := by
  cases t with
  | nil => rfl
  | cons c cs =>
    have hc : ¬c = '#' := (not_marker (h c (by simp))).1
    simp [mHeader, List.takeWhile_cons, hc]

/-- The double-delimiter matcher fires only on a leading delimiter. -/
theorem mDelim2_none (d : Char) (t : Str) (h : ∀ c ∈ t, ¬c = d) :
    mDelim2 d t = none := by
  cases t with
  | nil => rfl
  | cons c1 t1 =>
    cases t1 with
    | nil => rfl
    | cons c2 rest => simp [mDelim2, h c1 (by simp)]

/-- The single-delimiter matcher fires only on a leading delimiter. -/
theorem mDelim1_none (d : Char) (t : Str) (h : ∀ c ∈ t, ¬c = d) :
    mDelim1 d t = none := by
  cases t with
  | nil => rfl
  | cons c cs => simp [mDelim1, h c (by simp)]

/-- The code-block matcher fires only on a leading backtick. -/
theorem mCodeBlock_none (t : Str) (h : ∀ c ∈ t, c ∉ mdMarkers) :
    mCodeBlock t = none := by
  cases t with
  | nil => rfl
  | cons c1 t1 =>
    cases t1 with
    | nil => rfl
    | cons c2 t2 =>
      cases t2 with
      | nil => rfl
      | cons c3 rest =>
        simp [mCodeBlock, (not_marker (h c1 (by simp))).2.2.2.1]

/-- The link matcher fires only on a leading bracket. -/
theorem mLink_none (t : Str) (h : ∀ c ∈ t, c ∉ mdMarkers) :
    mLink t = none := by
  cases t with
  | nil => rfl
  | cons c cs => simp [mLink, (not_marker (h c (by simp))).2.2.2.2.1]

/-- The image matcher needs a bracket in second position. -/
theorem mImage_none (t : Str) (h : ∀ c ∈ t, c ∉ mdMarkers) :
    mImage t = none := by
  cases t with
  | nil => rfl
  | cons c1 t1 =>
    cases t1 with
    | nil => rfl
    | cons c2 rest =>
      simp [mImage, (not_marker (h c2 (by simp))).2.2.2.2.1]

/-- The blockquote matcher fires only on a leading angle bracket. -/
theorem mQuote_none (t : Str) (h : ∀ c ∈ t, c ∉ mdMarkers) :
    mQuote t = none := by
  cases t with
  | nil => rfl
  | cons c cs => simp [mQuote, (not_marker (h c (by simp))).2.2.2.2.2.1]

/-- The horizontal-rule matcher fires only on a leading rule character. -/
theorem mHr_none (t : Str) (h : ∀ c ∈ t, c ∉ mdMarkers) :
    mHr t = none := by
  cases t with
  | nil => rfl
  | cons c cs =>
    have hm := not_marker (h c (by simp))
    simp [mHr, List.takeWhile_cons, hm.2.2.2.2.2.2.1, hm.2.1, hm.2.2.1]

/-- The newline-collapse matcher fires only on a leading newline. -/
theorem mNewlines_none (t : Str) (h : ∀ c ∈ t, c ∉ mdMarkers) :
    mNewlines t = none := by
  cases t with
  | nil => rfl
  | cons c cs =>
    simp [mNewlines, List.takeWhile_cons, (not_marker (h c (by simp))).2.2.2.2.2.2.2]

/-- On a marker-free string every replacement pass is the identity, so
`stripMarkdown` reduces to the final trim. -/
theorem stripMarkdownL_marker_free (s : Str) (h : ∀ c ∈ s, c ∉ mdMarkers) :
    stripMarkdownL s = trimB s := by
  have hP : ∀ c ∈ s, c ∉ mdMarkers := h
  have hstar : ∀ t : Str, (∀ c ∈ t, c ∉ mdMarkers) → ∀ c ∈ t, ¬c = '*' :=
    fun t ht c hc => (not_marker (ht c hc)).2.1
  have hund : ∀ t : Str, (∀ c ∈ t, c ∉ mdMarkers) → ∀ c ∈ t, ¬c = '_' :=
    fun t ht c hc => (not_marker (ht c hc)).2.2.1
  have htick : ∀ t : Str, (∀ c ∈ t, c ∉ mdMarkers) → ∀ c ∈ t, ¬c = '`' :=
    fun t ht c hc => (not_marker (ht c hc)).2.2.2.1
  simp only [stripMarkdownL]
  rw [scanA_id mHeader _ mHeader_none s.length true s hP,
    scanP_id (mDelim2 '*') (· ∉ mdMarkers)
      (fun t ht => mDelim2_none '*' t (hstar t ht)) s.length s hP,
    scanP_id (mDelim1 '*') (· ∉ mdMarkers)
      (fun t ht => mDelim1_none '*' t (hstar t ht)) s.length s hP,
    scanP_id (mDelim2 '_') (· ∉ mdMarkers)
      (fun t ht => mDelim2_none '_' t (hund t ht)) s.length s hP,
    scanP_id (mDelim1 '_') (· ∉ mdMarkers)
      (fun t ht => mDelim1_none '_' t (hund t ht)) s.length s hP,
    scanP_id (mDelim1 '`') (· ∉ mdMarkers)
      (fun t ht => mDelim1_none '`' t (htick t ht)) s.length s hP,
    scanP_id mCodeBlock _ mCodeBlock_none s.length s hP,
    scanP_id mLink _ mLink_none s.length s hP,
    scanP_id mImage _ mImage_none s.length s hP,
    scanA_id mQuote _ mQuote_none s.length true s hP,
    scanA_id mHr _ mHr_none s.length true s hP,
    scanP_id mNewlines _ mNewlines_none s.length s hP]

/-- Dropping leading whitespace leaves a head that is not whitespace. -/
theorem dropWhile_isWS_head :
    ∀ l : Str, ∀ c, (l.dropWhile isWS).head? = some c → isWS c = false := by
  intro l
  induction l with
  | nil => intro c h; simp at h
  | cons a as ih =>
    intro c h
    by_cases ha : isWS a
    · rw [List.dropWhile_cons, if_pos ha] at h
      exact ih c h
    · rw [List.dropWhile_cons, if_neg ha] at h
      injection h with h'
      subst h'
      exact Bool.eq_false_iff.mpr ha

/-- A list whose head is not whitespace is untouched by the drop. -/
theorem dropWhile_isWS_self (l : Str)
    (h : ∀ c, l.head? = some c → isWS c = false) : l.dropWhile isWS = l := by
  cases l with
  | nil => rfl
  | cons a as =>
    rw [List.dropWhile_cons, if_neg (by simp [h a rfl])]

/-- Dropping leading whitespace is idempotent. -/
theorem dropWhile_isWS_idem (l : Str) :
    (l.dropWhile isWS).dropWhile isWS = l.dropWhile isWS :=
  dropWhile_isWS_self _ (dropWhile_isWS_head l)

/-- Right trim after a left trim of a right-trimmed string changes
nothing. -/
theorem trimR_trimL_trimR (s : Str) :
    trimRight (trimLeft (trimRight s)) = trimLeft (trimRight s) := by
  have hw : (trimRight s).reverse = (s.reverse).dropWhile isWS := by
    simp [trimRight]
  cases hrd : ((trimRight s).dropWhile isWS).reverse with
  | nil =>
    have : trimLeft (trimRight s) = [] := by
      have := congrArg List.reverse hrd
      simpa [trimLeft] using this
    rw [this]
    rfl
  | cons a t =>
    have hsplit : trimRight s =
        (trimRight s).takeWhile isWS ++ (trimRight s).dropWhile isWS :=
      (List.takeWhile_append_dropWhile isWS (trimRight s)).symm
    have hrev : (trimRight s).reverse =
        (a :: t) ++ ((trimRight s).takeWhile isWS).reverse := by
      conv_lhs => rw [hsplit]
      rw [List.reverse_append, hrd]
    have hhead : isWS a = false := by
      apply dropWhile_isWS_head s.reverse a
      rw [← hw, hrev]
      rfl
    show ((trimLeft (trimRight s)).reverse.dropWhile isWS).reverse =
      trimLeft (trimRight s)
    have : (trimLeft (trimRight s)).reverse = a :: t := by
      simpa [trimLeft] using hrd
    rw [this, List.dropWhile_cons, if_neg (by simp [hhead]), ← this,
      List.reverse_reverse]

/-- The JavaScript trim is idempotent. -/
theorem trimB_idem (s : Str) : trimB (trimB s) = trimB s := by
  show trimLeft (trimRight (trimLeft (trimRight s))) = trimLeft (trimRight s)
  rw [trimR_trimL_trimR s]
  show (trimLeft (trimRight s)).dropWhile isWS = trimLeft (trimRight s)
  exact dropWhile_isWS_idem (trimRight s)

/-- Trimming only removes characters of the original string. -/
theorem trimB_subset (s : Str) : ∀ c ∈ trimB s, c ∈ s := by
  intro c hc
  have h1 : c ∈ trimRight s := (List.dropWhile_sublist _).subset hc
  have h2 : c ∈ (s.reverse).dropWhile isWS := by
    simpa [trimRight] using h1
  have h3 : c ∈ s.reverse := (List.dropWhile_sublist _).subset h2
  simpa using h3

/-- Claim C10, amended: `stripMarkdown` is not idempotent in general (see
the counterexample), but it is idempotent on every string containing none
of the markdown marker characters `#`, `*`, `_`, backtick, `[`, `>`, `-`
and no newline: there a pass is exactly the final trim, and trimming is
idempotent. -/
theorem C10_stripMarkdown_idempotent_marker_free :
    ∀ s : String, (∀ c ∈ s.data, c ∉ mdMarkers) →
      stripMarkdown (stripMarkdown s) = stripMarkdown s := by
  intro s h
  have h1 : stripMarkdownL s.data = trimB s.data :=
    stripMarkdownL_marker_free s.data h
  have h2 : ∀ c ∈ trimB s.data, c ∉ mdMarkers :=
    fun c hc => h c (trimB_subset s.data c hc)
  simp only [stripMarkdown]
  rw [h1]
  show String.mk (stripMarkdownL (trimB s.data)) = String.mk (trimB s.data)
  rw [stripMarkdownL_marker_free _ h2, trimB_idem]

/-- Claim C10, witness: idempotence at a concrete marker-free string. -/
theorem C10_stripMarkdown_idempotent_witness :
    (∀ c ∈ ("hello world" : String).data, c ∉ mdMarkers) ∧
    stripMarkdown (stripMarkdown "hello world") = stripMarkdown "hello world" :=
  ⟨by decide, C10_stripMarkdown_idempotent_marker_free "hello world" (by decide)⟩

end LLMCouncil
